import Mathlib

/-!
Verification of `with-cell-rs` (`WithCell<T>`).

Shallow embedding of `src/lib.rs`.  A `WithCell<T>` wraps a single
`Cell<T>`-like slot.  We model the slot's contents as a plain value and
thread the cell state explicitly through every operation.

Callbacks passed to `with` / `inspect` / `map` are higher-order and may
themselves access the cell (reentrancy) or panic.  We therefore give a
callback access to the current cell state (modelling reentrant calls
through the shared reference) and let it fail with a panic payload of an
arbitrary type `P` (`Except.error p` models a panic with payload `p`
unwinding).  The
cell state is threaded *outside* the exception, since in Rust the cell's
memory survives an unwind and can be observed after a `catch_unwind`.

Rust's `T: Default` bound is modelled by `[Inhabited T]`, with `default`
playing the role of `T::default()`.
-/

/-- `pub struct WithCell<T>(Cell<T>);` — the single slot, holding the
current value of the inner `Cell`. -/
structure WithCell (T : Type u) where
  slot : T
deriving DecidableEq, Repr

namespace WithCell

/-- `pub const fn new(value: T) -> Self { Self(Cell::new(value)) }` -/
def new (value : T) : WithCell T := ⟨value⟩

/-- `Cell::get` (reachable through the `Deref` impl, for `T: Copy`):
reads the slot without modifying it. -/
def get (c : WithCell T) : T := c.slot

/-- A callback `F: FnOnce(&mut T) -> R`, in the explicit-state embedding:
it receives the value taken out of the slot and the current cell state
(through which reentrant calls on the same cell are modelled), and either
returns normally with the mutated value, the resulting cell state and a
result `R`, or panics with payload `P`, also leaving a cell state behind. -/
abbrev Callback (T : Type u) (P R : Type v) : Type (max u v) :=
  T → WithCell T → Except P (T × R) × WithCell T

/--
```rust
pub fn with<F, R>(&self, f: F) -> R where F: FnOnce(&mut T) -> R {
    let mut v = self.0.take();
    let ret = (f)(&mut v);
    self.0.set(v);
    ret
}
```
`take` removes the value and installs `T::default()`; `set v` then
unconditionally overwrites whatever the slot holds when `f` returns
normally.  If `f` panics, `set` never runs and the panic propagates. -/
def wth [Inhabited T] (c : WithCell T) (f : Callback T P R) :
    Except P R × WithCell T :=
  let v := c.slot
  let c1 : WithCell T := ⟨default⟩
  match f v c1 with
  | (Except.error p, c2) => (Except.error p, c2)
  | (Except.ok (v2, r), _) => (Except.ok r, ⟨v2⟩)

/--
```rust
pub fn inspect<F>(&self, f: F) -> &Self where F: FnOnce(&mut T) {
    self.with(f);
    self
}
```
The returned `&Self` is the cell itself after the call, i.e. the state
component of the result. -/
def inspect [Inhabited T] (c : WithCell T) (f : Callback T P Unit) :
    Except P Unit × WithCell T :=
  match c.wth f with
  | (Except.error p, c2) => (Except.error p, c2)
  | (Except.ok _, c2) => (Except.ok (), c2)

/-- A callback `F: FnOnce(T) -> T` for `map`: receives the taken value by
value; may access the cell reentrantly and may panic. -/
abbrev MapCallback (T : Type u) (P : Type v) : Type (max u v) :=
  T → WithCell T → Except P T × WithCell T

/--
```rust
pub fn map<F>(&self, f: F) -> &Self where F: FnOnce(T) -> T {
    self.0.set((f)(self.0.take()));
    self
}
```
`take` runs first (value out, default in), then `f`, then `set` installs
`f`'s return value over whatever is in the slot; on panic `set` never
runs. -/
def map [Inhabited T] (c : WithCell T) (f : MapCallback T P) :
    Except P Unit × WithCell T :=
  let v := c.slot
  let c1 : WithCell T := ⟨default⟩
  match f v c1 with
  | (Except.error p, c2) => (Except.error p, c2)
  | (Except.ok v2, _) => (Except.ok (), ⟨v2⟩)

/-- Lift a pure mutating callback `g : T → T × R` (mutate the borrowed
value, produce a result) into a `Callback` that never panics and never
touches the cell reentrantly. -/
def liftRef (g : T → T × R) : Callback T P R :=
  fun v c => (Except.ok (g v), c)

/-- Lift a pure function `g : T → T` into a `MapCallback` that never
panics and never touches the cell reentrantly. -/
def liftMap (g : T → T) : MapCallback T P :=
  fun v c => (Except.ok (g v), c)

/--
```rust
impl<T: Default + Debug> Debug for WithCell<T> {
    fn fmt(&self, f: &mut Formatter) -> fmt::Result { self.with(|x| x.fmt(f)) }
}
```
`T`'s debug formatter is abstracted as a function `fmtT : T → String`;
the closure `|x| x.fmt(f)` reads `x` and produces its textual output. -/
def fmtDebug [Inhabited T] (c : WithCell T) (fmtT : T → String) :
    Except P String × WithCell T :=
  c.wth (fun x cd => (Except.ok (x, fmtT x), cd))

/--
```rust
impl<T: Default + Clone> Clone for WithCell<T> {
    fn clone(&self) -> Self { self.with(|x| x.clone()).into() }
}
```
The closure `|x| x.clone()` leaves `x` in place and returns a copy of it;
`.into()` wraps the copy in a fresh cell.  Result: the new cell paired
with the original cell's state after the call. -/
def clone [Inhabited T] (c : WithCell T) : WithCell T × WithCell T :=
  match c.wth (P := Empty) (fun x cd => (Except.ok (x, x), cd)) with
  | (Except.ok r, c2) => (⟨r⟩, c2)
  | (Except.error e, _) => e.elim

/--
```rust
impl<T> From<T> for WithCell<T> {
    fn from(x: T) -> Self { Self(x.into()) }
}
```
(`x.into()` here is `Cell::from(x)`, which stores `x`.) -/
def fromVal (x : T) : WithCell T := ⟨x⟩

end WithCell

/-!
Heap-level model.

To reason about *distinct* cells (the `Clone` impl builds a fresh
`Cell` via `Cell::new`), we additionally model a heap of allocated
cells: a list of slots, a cell being an index into it.  The operations
mirror the same source lines, with `Cell::take` = read + write default
and `Cell::set` = write, now performed at a given index.
-/

/-- A heap of allocated `Cell<T>` slots; a cell is an index into `cells`. -/
structure CellHeap (T : Type) where
  cells : List T

namespace CellHeap

variable {T : Type}

/-- Read the slot at index `i` (out-of-range reads, which never occur for
allocated cells, yield `default`). -/
def read [Inhabited T] (h : CellHeap T) (i : Nat) : T := h.cells.getD i default

/-- `Cell::set` on the cell at index `i`. -/
def write (h : CellHeap T) (i : Nat) (v : T) : CellHeap T := ⟨h.cells.set i v⟩

/-- `Cell::new`: allocate a fresh slot holding `v`; returns its index. -/
def alloc (h : CellHeap T) (v : T) : Nat × CellHeap T :=
  (h.cells.length, ⟨h.cells ++ [v]⟩)

/-- `WithCell::with` with a pure callback `g : T → T × R` on the cell at
index `i`: `take` (read the value, install `default`), run `g` on the
taken value, `set` the mutated value back. -/
def withAt [Inhabited T] {R : Type} (h : CellHeap T) (i : Nat) (g : T → T × R) :
    R × CellHeap T :=
  let v := h.read i
  let h1 := h.write i default
  let r := g v
  (r.2, h1.write i r.1)

/-- `WithCell::map` with a pure callback on the cell at index `i`:
`self.0.set((f)(self.0.take()))`. -/
def mapAt [Inhabited T] (h : CellHeap T) (i : Nat) (g : T → T) : CellHeap T :=
  let v := h.read i
  let h1 := h.write i default
  h1.write i (g v)

/-- `WithCell::clone` of the cell at index `i`:
`self.with(|x| x.clone()).into()` — extract a copy of the value via
`with`, then allocate a *fresh* cell holding it.  Returns the fresh
cell's index and the resulting heap. -/
def cloneAt [Inhabited T] (h : CellHeap T) (i : Nat) : Nat × CellHeap T :=
  let r := h.withAt i (fun x => (x, x))
  r.2.alloc r.1

/-- One `with` / `inspect` / `map` call with a pure callback, for stating
frame properties over arbitrary operation sequences.  The state effect of
`with`/`inspect` is the mutation `g` the callback performs on the
borrowed value; `map` installs `g` of the taken value. -/
inductive CellOp (T : Type) where
  | opWith (g : T → T)
  | opInspect (g : T → T)
  | opMap (g : T → T)

/-- Apply one operation to the cell at index `i`. -/
def applyOp [Inhabited T] (h : CellHeap T) (i : Nat) : CellOp T → CellHeap T
  | CellOp.opWith g => (h.withAt i (fun v => (g v, ()))).2
  | CellOp.opInspect g => (h.withAt i (fun v => (g v, ()))).2
  | CellOp.opMap g => h.mapAt i g

/-- Apply a sequence of operations to the cell at index `i`. -/
def applyOps [Inhabited T] (h : CellHeap T) (i : Nat) : List (CellOp T) → CellHeap T
  | [] => h
  | op :: ops => applyOps (h.applyOp i op) i ops

theorem read_write_ne [Inhabited T] (h : CellHeap T) {i j : Nat} (v : T)
    (hne : i ≠ j) : (h.write j v).read i = h.read i := by
  simp only [read, write, List.getD_eq_getElem?_getD]
  rw [List.getElem?_set_ne (Ne.symm hne)]

theorem read_write_self [Inhabited T] (h : CellHeap T) {i : Nat} (v : T)
    (hi : i < h.cells.length) : (h.write i v).read i = v := by
  simp only [read, write, List.getD_eq_getElem?_getD]
  rw [List.getElem?_set_eq_of_lt v hi]
  rfl

theorem read_applyOp_ne [Inhabited T] (h : CellHeap T) {i j : Nat}
    (op : CellOp T) (hne : i ≠ j) : (h.applyOp j op).read i = h.read i := by
  cases op <;>
    simp only [applyOp, withAt, mapAt] <;>
    rw [read_write_ne _ _ hne, read_write_ne _ _ hne]

theorem read_applyOps_ne [Inhabited T] (h : CellHeap T) {i j : Nat}
    (ops : List (CellOp T)) (hne : i ≠ j) :
    (h.applyOps j ops).read i = h.read i := by
  induction ops generalizing h with
  | nil => rfl
  | cons op ops ih => rw [applyOps, ih, read_applyOp_ne _ _ hne]

theorem length_write (h : CellHeap T) (i : Nat) (v : T) :
    (h.write i v).cells.length = h.cells.length := by
  simp [write]

theorem read_alloc_old [Inhabited T] (h : CellHeap T) (v : T) {i : Nat}
    (hi : i < h.cells.length) : (h.alloc v).2.read i = h.read i := by
  simp only [read, alloc, List.getD_eq_getElem?_getD]
  rw [List.getElem?_append, if_pos hi]

theorem read_alloc_new [Inhabited T] (h : CellHeap T) (v : T) :
    (h.alloc v).2.read (h.alloc v).1 = v := by
  simp only [read, alloc, List.getD_eq_getElem?_getD]
  rw [List.getElem?_concat_length]
  rfl

end CellHeap

/-!
Claim theorems.
-/

/-- C1: `with` on a container holding `v` removes `v` from the slot,
leaves the default placeholder there while `f` runs, invokes `f` exactly
once with exclusive access to `v` (the outcome depends only on `f`'s
value at the extracted value and the placeholder cell), writes the
possibly-mutated value back, and returns `f`'s result.  In particular
`with(|x| x.clone())` returns `v` and restores the container, and
`with(|x| *x = v2)` leaves the container holding `v2` regardless of `v`. -/
theorem with_spec {T R P : Type} [Inhabited T] (v v2 : T) (g : T → T × R) :
    (WithCell.new v).wth (WithCell.liftRef (P := P) g)
        = (Except.ok (g v).2, WithCell.new (g v).1)
    ∧ (WithCell.new v).wth (WithCell.liftRef (P := P) (fun x => (x, x)))
        = (Except.ok v, WithCell.new v)
    ∧ (WithCell.new v).wth (WithCell.liftRef (P := P) (fun _ => (v2, ())))
        = (Except.ok (), WithCell.new v2)
    ∧ ∀ f₁ f₂ : WithCell.Callback T P R,
        f₁ v (WithCell.new default) = f₂ v (WithCell.new default) →
        (WithCell.new v).wth f₁ = (WithCell.new v).wth f₂ := by
  refine ⟨rfl, rfl, rfl, fun f₁ f₂ hf => ?_⟩
  simp only [WithCell.wth, WithCell.new] at hf ⊢
  rw [hf]

/-- C1 witness: at `T = Nat`, `v = 3`, `v2 = 9`, `g x = (x + 1, x * 2)`,
and two callbacks agreeing at the extraction point. -/
theorem with_spec_witness :
    (WithCell.new 3).wth (WithCell.liftRef (P := Unit) (fun x => (x + 1, x * 2)))
        = (Except.ok 6, WithCell.new 4)
    ∧ (WithCell.new 3).wth
          (fun v c => (Except.ok (v + 1, v * 2), c) :
            WithCell.Callback Nat Unit Nat)
        = (WithCell.new 3).wth
          (fun v c => (Except.ok (v + 1, 2 * v), c) :
            WithCell.Callback Nat Unit Nat) :=
  ⟨(with_spec 3 9 (fun x => (x + 1, x * 2))).1,
   (with_spec 3 9 (fun x => (x + 1, x * 2))).2.2.2 _ _ rfl⟩

/-- C2: `map(f)` on a container holding `v` takes `v` out (leaving the
default placeholder), applies the pure function `f` to it by value,
installs `f v` as the new contents and returns the container itself
(the state component), so calls chain; mapping append-"a" then
append-"b" over the empty string yields a container holding `"ab"`. -/
theorem map_spec {T P : Type} [Inhabited T] (v : T) (g : T → T) :
    (WithCell.new v).map (WithCell.liftMap (P := P) g)
        = (Except.ok (), WithCell.new (g v))
    ∧ (((WithCell.new "").map (WithCell.liftMap (P := P) (fun x => x ++ "a"))).2.map
          (WithCell.liftMap (P := P) (fun x => x ++ "b"))).2
        = WithCell.new "ab" :=
  ⟨rfl, rfl⟩

/-- C3: `inspect(f)` has exactly the same effect as `with(f)`: same
extraction, same placeholder, same reinstallation, same state and same
(unit) outcome — and its state component is the container itself,
usable for further chained calls. -/
theorem inspect_eq_with {T P : Type} [Inhabited T] (c : WithCell T)
    (f : WithCell.Callback T P Unit) :
    c.inspect f = c.wth f := by
  unfold WithCell.inspect
  rcases h : c.wth f with ⟨r, c2⟩
  cases r with
  | error p => rfl
  | ok u => cases u; rfl

/-- C4: if the callback passed to `with`, `inspect` or `map` panics
(payload `p`, without itself writing to the cell), the panic propagates
to the caller unchanged and the container is left holding `T`'s default
value; in particular, when the original value was not the default, the
value is lost. -/
theorem panic_spec {T R P : Type} [Inhabited T] (c : WithCell T) (p : P) :
    c.wth (R := R) (fun _ cd => (Except.error p, cd))
        = (Except.error p, WithCell.new default)
    ∧ c.inspect (fun _ cd => (Except.error p, cd))
        = (Except.error p, WithCell.new default)
    ∧ c.map (fun _ cd => (Except.error p, cd))
        = (Except.error p, WithCell.new default)
    ∧ (c.slot ≠ default →
        (c.wth (R := R) (fun _ cd => (Except.error p, cd))).2.slot ≠ c.slot) :=
  ⟨rfl, rfl, rfl, fun hne => fun hc => hne hc.symm⟩

/-- C4 witness: at `T = Nat`, a cell holding `1 ≠ 0` and panic payload
`"boom"`. -/
theorem panic_spec_witness :
    (WithCell.new 1).wth (R := Unit) (fun _ cd => (Except.error "boom", cd))
        = (Except.error "boom", WithCell.new 0)
    ∧ ((WithCell.new 1).wth (R := Unit)
        (fun _ cd => (Except.error "boom", cd))).2.slot ≠ (WithCell.new 1).slot :=
  ⟨(panic_spec (WithCell.new 1) "boom").1,
   (panic_spec (R := Unit) (WithCell.new 1) "boom").2.2.2 (by decide)⟩

/-- C5: during the dynamic extent of the callback passed to `with`,
`inspect` or `map`, the slot holds `T`'s default value: a reentrant read
from inside a `with` callback observes the placeholder, a nested `with`
from inside a `with` callback operates on the placeholder, a reentrant
read from inside an `inspect` or `map` callback likewise observes the
placeholder (evidenced by the observed value being the one written
back / installed), a nested `with` inside a `map` callback operates on
the placeholder, and when the stored value differs from the default
none of these reentrant accesses ever observes the real value. -/
theorem reentrant_spec {T P : Type} [Inhabited T] (c : WithCell T) :
    c.wth (P := P) (fun v cd => (Except.ok (v, cd.slot), cd))
        = (Except.ok (default : T), c)
    ∧ c.wth (P := P) (fun v cd =>
          match cd.wth (fun w cd2 => (Except.ok (w, w), cd2)) with
          | (r, cd3) => (r.map (fun w => (v, w)), cd3))
        = (Except.ok (default : T), c)
    ∧ c.inspect (P := P) (fun _ cd => (Except.ok (cd.slot, ()), cd))
        = (Except.ok (), WithCell.new default)
    ∧ c.map (P := P) (fun _ cd => (Except.ok cd.slot, cd))
        = (Except.ok (), WithCell.new default)
    ∧ c.map (P := P) (fun _ cd =>
          match cd.wth (fun w cd2 => (Except.ok (w, w), cd2)) with
          | (r, cd3) => (r, cd3))
        = (Except.ok (), WithCell.new default)
    ∧ (c.slot ≠ default →
        (c.wth (P := P) (fun v cd => (Except.ok (v, cd.slot), cd))).1
            ≠ Except.ok c.slot
        ∧ (c.inspect (P := P) (fun _ cd => (Except.ok (cd.slot, ()), cd))).2.slot
            ≠ c.slot
        ∧ (c.map (P := P) (fun _ cd => (Except.ok cd.slot, cd))).2.slot
            ≠ c.slot) := by
  refine ⟨rfl, rfl, rfl, rfl, rfl, fun hne => ⟨?_, ?_, ?_⟩⟩
  · intro h
    simp only [WithCell.wth] at h
    exact hne (Except.ok.inj h).symm
  · intro h
    simp only [WithCell.inspect, WithCell.wth] at h
    exact hne h.symm
  · intro h
    simp only [WithCell.map] at h
    exact hne h.symm

/-- C5 witness: at `T = Nat`, a cell holding `7 ≠ 0`: the reentrant read
inside `with` returns `0`, the reentrant reads inside `inspect` and
`map` leave `0` installed, and none of them observes `7`. -/
theorem reentrant_spec_witness :
    (WithCell.new 7).wth (P := Unit) (fun v cd => (Except.ok (v, cd.slot), cd))
        = (Except.ok 0, WithCell.new 7)
    ∧ (WithCell.new 7).inspect (P := Unit)
          (fun _ cd => (Except.ok (cd.slot, ()), cd))
        = (Except.ok (), WithCell.new 0)
    ∧ (WithCell.new 7).map (P := Unit) (fun _ cd => (Except.ok cd.slot, cd))
        = (Except.ok (), WithCell.new 0)
    ∧ ((WithCell.new 7).wth (P := Unit)
        (fun v cd => (Except.ok (v, cd.slot), cd))).1 ≠ Except.ok 7
    ∧ ((WithCell.new 7).map (P := Unit)
        (fun _ cd => (Except.ok cd.slot, cd))).2.slot ≠ 7 :=
  ⟨(reentrant_spec (WithCell.new 7)).1,
   (reentrant_spec (P := Unit) (WithCell.new 7)).2.2.1,
   (reentrant_spec (P := Unit) (WithCell.new 7)).2.2.2.1,
   ((reentrant_spec (P := Unit) (WithCell.new 7)).2.2.2.2.2 (by decide)).1,
   ((reentrant_spec (P := Unit) (WithCell.new 7)).2.2.2.2.2 (by decide)).2.2⟩

/-- C6: when `with` returns normally, the value written back is exactly
the value lent to (and possibly mutated by) the callback, and whatever
the slot holds at that moment — including anything stored by a reentrant
write during the callback — is discarded; likewise `map` installs the
callback's return value over whatever is then in the slot. -/
theorem writeback_spec {T R P : Type} [Inhabited T] (c : WithCell T)
    (f : WithCell.Callback T P R) (v2 : T) (r : R) (c2 : WithCell T)
    (hf : f c.slot (WithCell.new default) = (Except.ok (v2, r), c2))
    (g : WithCell.MapCallback T P) (w2 : T) (d2 : WithCell T)
    (hg : g c.slot (WithCell.new default) = (Except.ok w2, d2)) :
    c.wth f = (Except.ok r, WithCell.new v2)
    ∧ c.map g = (Except.ok (), WithCell.new w2) := by
  constructor
  · simp only [WithCell.wth, WithCell.new] at hf ⊢
    rw [hf]
  · simp only [WithCell.map, WithCell.new] at hg ⊢
    rw [hg]

/-- C6 witness: at `T = Nat`, a cell holding `3`, a `with` callback that
reentrantly stores `42` and mutates the lent value to `4`, and a `map`
callback that reentrantly stores `99` and returns `6`: the reentrant
stores are discarded. -/
theorem writeback_spec_witness :
    (WithCell.new 3).wth
        (fun v _ => (Except.ok (v + 1, v), WithCell.new 42) :
          WithCell.Callback Nat Unit Nat)
      = (Except.ok 3, WithCell.new 4)
    ∧ (WithCell.new 3).map
        (fun v _ => (Except.ok (v * 2), WithCell.new 99) :
          WithCell.MapCallback Nat Unit)
      = (Except.ok (), WithCell.new 6) :=
  writeback_spec (WithCell.new 3)
    (fun v _ => (Except.ok (v + 1, v), WithCell.new 42)) 4 3 (WithCell.new 42) rfl
    (fun v _ => (Except.ok (v * 2), WithCell.new 99)) 6 (WithCell.new 99) rfl

/-- C7: debug-formatting a container holding `v` produces exactly the
text `T`'s own formatter produces for `v`, and afterwards the container
again holds the value it held before formatting. -/
theorem fmtDebug_spec {T P : Type} [Inhabited T] (c : WithCell T)
    (fmtT : T → String) :
    c.fmtDebug (P := P) fmtT = (Except.ok (fmtT c.slot), c) :=
  rfl

/-- C8: `clone` produces a new container holding a value equal to the
current one, and the original container again holds that value after the
temporary extraction. -/
theorem clone_spec {T : Type} [Inhabited T] (c : WithCell T) :
    c.clone = (WithCell.new c.slot, c) :=
  rfl

/-- C9: converting a bare value into a container (`From`) is the same as
constructing one with `new(v)`, and a freshly constructed container,
immediately read, yields `v` unchanged. -/
theorem fromVal_spec {T : Type} (v : T) :
    WithCell.fromVal v = WithCell.new v ∧ (WithCell.new v).get = v :=
  ⟨rfl, rfl⟩

/-- C10: the container produced by `clone` occupies a slot disjoint from
the original's: the fresh cell's index differs from the original's, both
cells hold the cloned value, and any sequence of `with` / `inspect` /
`map` operations applied to the clone leaves the original's value
unchanged, and vice versa. -/
theorem cloneAt_disjoint {T : Type} [Inhabited T] (h : CellHeap T) (i : Nat)
    (hi : i < h.cells.length) :
    (h.cloneAt i).1 ≠ i
    ∧ (h.cloneAt i).2.read (h.cloneAt i).1 = h.read i
    ∧ (h.cloneAt i).2.read i = h.read i
    ∧ ∀ ops : List (CellHeap.CellOp T),
        ((h.cloneAt i).2.applyOps (h.cloneAt i).1 ops).read i
            = (h.cloneAt i).2.read i
        ∧ ((h.cloneAt i).2.applyOps i ops).read (h.cloneAt i).1
            = (h.cloneAt i).2.read (h.cloneAt i).1 := by
  have hj : (h.cloneAt i).1 = h.cells.length := by
    simp [CellHeap.cloneAt, CellHeap.withAt, CellHeap.alloc, CellHeap.length_write]
  have hne : (h.cloneAt i).1 ≠ i := by
    rw [hj]; exact (Nat.ne_of_lt hi).symm
  refine ⟨hne, ?_, ?_, fun ops => ⟨?_, ?_⟩⟩
  · show ((CellHeap.withAt h i fun x => (x, x)).2.alloc
        (CellHeap.withAt h i fun x => (x, x)).1).2.read (h.cloneAt i).1 = h.read i
    rw [hj]
    have hlen : (CellHeap.withAt h i (fun x => (x, x))).2.cells.length
        = h.cells.length := by
      simp [CellHeap.withAt, CellHeap.length_write]
    rw [show h.cells.length = (CellHeap.withAt h i (fun x => (x, x))).2.cells.length
          from hlen.symm]
    have := CellHeap.read_alloc_new (CellHeap.withAt h i (fun x => (x, x))).2
        (CellHeap.withAt h i (fun x => (x, x))).1
    simp only [CellHeap.alloc] at this ⊢
    rw [this]
    simp [CellHeap.withAt]
  · show ((CellHeap.withAt h i fun x => (x, x)).2.alloc
        (CellHeap.withAt h i fun x => (x, x)).1).2.read i = h.read i
    rw [CellHeap.read_alloc_old]
    · simp only [CellHeap.withAt]
      rw [CellHeap.read_write_self]
      rw [CellHeap.length_write]; exact hi
    · simp only [CellHeap.withAt]
      rw [CellHeap.length_write, CellHeap.length_write]; exact hi
  · exact CellHeap.read_applyOps_ne _ ops (Ne.symm hne)
  · exact CellHeap.read_applyOps_ne _ ops hne

/-- C10 witness: a one-cell heap holding `5`; a map on the clone leaves
the original's value unchanged. -/
theorem cloneAt_disjoint_witness :
    ((CellHeap.mk [5] : CellHeap Nat).cloneAt 0).1 ≠ 0
    ∧ (((CellHeap.mk [5] : CellHeap Nat).cloneAt 0).2.applyOps
        ((CellHeap.mk [5] : CellHeap Nat).cloneAt 0).1
        [CellHeap.CellOp.opMap (fun x => x + 1)]).read 0
      = ((CellHeap.mk [5] : CellHeap Nat).cloneAt 0).2.read 0 :=
  ⟨(cloneAt_disjoint (CellHeap.mk [5]) 0 (by decide)).1,
   ((cloneAt_disjoint (CellHeap.mk [5]) 0 (by decide)).2.2.2
      [CellHeap.CellOp.opMap (fun x => x + 1)]).1⟩
